import Mathlib

/-!
Verification of the ring buffer module of `bring_up_command_bare_metal`
(`Core/Src/command.c`, ring_buffer section, and `Core/Inc/ring_buffer.h`).

The C module is shallowly embedded: the `RingBuffer` struct becomes a Lean
structure whose `uint16_t` cursor/counter fields are modelled as `Nat`
(every arithmetic step the C code performs on them is exact for the values
that occur: the cursors are reset to `0` before reaching `RING_BUFFER_SIZE`,
the counter is guarded by the full/empty checks before it is changed, and
`uint16_t` operands of `+`/`-`/comparisons are promoted to `int` in C, so no
wrap-around is ever observable in the claims' range), and the `uint8_t`
storage array becomes a `List Nat` of length `RING_BUFFER_SIZE`.

Pointers that may be NULL are modelled as `Option`: a pointer argument is
`none` exactly when the C caller passes NULL, and an out-parameter
`uint8_t*`/`uint16_t*` is modelled by passing the current pointee in and
returning the (possibly updated) pointee.  Each public C function
`RingBufferXxx` is embedded as a wrapper of that name which performs the
NULL/range test the C source performs first, around a `xxxCore` function
holding the body that runs on non-NULL arguments.

C truth tests on a `ReturnCodes` value (`if(RingBufferIsFull(rb))`) are
embedded as `≠ kOk`, since `kOk = 0` and all other enumerators are nonzero.
-/

/-- Return codes of the ring buffer API (`ring_buffer.h`). -/
inductive ReturnCodes where
  | kOk
  | kFull
  | kEmpty
  | kInvalidArgument
  | kError
deriving Repr, DecidableEq

/-- `#define RING_BUFFER_SIZE 4` (`ring_buffer.h`). -/
def RING_BUFFER_SIZE : Nat := 4

/-- The `RingBuffer` struct: storage array, write cursor, read cursor,
occupancy counter (`ring_buffer.h`). -/
structure RingBuffer where
  buffer : List Nat
  head : Nat
  tail : Nat
  items : Nat
deriving Repr, DecidableEq

/-- Body of `RingBufferInit` on a non-NULL buffer: zero the three
bookkeeping fields, leave the storage alone. -/
def initCore (rb : RingBuffer) : RingBuffer :=
  { rb with head := 0, tail := 0, items := 0 }

/-- Body of `RingBufferIsFull` on a non-NULL buffer:
`items >= RING_BUFFER_SIZE - 1` means full. -/
def isFullCore (rb : RingBuffer) : ReturnCodes :=
  if rb.items ≥ RING_BUFFER_SIZE - 1 then .kFull else .kOk

/-- Body of `RingBufferIsEmpty` on a non-NULL buffer: `items <= 0` means
empty. -/
def isEmptyCore (rb : RingBuffer) : ReturnCodes :=
  if rb.items ≤ 0 then .kEmpty else .kOk

/-- Body of `RingBufferPush` on a non-NULL buffer: reject when full, else
store at `head`, advance `head` with compare-and-reset wrap, increment
`items`. -/
def pushCore (rb : RingBuffer) (data : Nat) : ReturnCodes × RingBuffer :=
  if isFullCore rb = .kFull then (.kFull, rb)
  else
    (.kOk,
      { buffer := rb.buffer.set rb.head data
        head := if rb.head + 1 ≥ RING_BUFFER_SIZE then 0 else rb.head + 1
        tail := rb.tail
        items := rb.items + 1 })

/-- Body of `RingBufferPop` on non-NULL arguments; `d` is the pointee of the
out-pointer `data`, returned unchanged when the pop fails. -/
def popCore (rb : RingBuffer) (d : Nat) : ReturnCodes × RingBuffer × Nat :=
  if isEmptyCore rb = .kEmpty then (.kEmpty, rb, d)
  else
    (.kOk,
      { buffer := rb.buffer
        head := rb.head
        tail := if rb.tail + 1 ≥ RING_BUFFER_SIZE then 0 else rb.tail + 1
        items := rb.items - 1 },
      rb.buffer.getD rb.tail 0)

/-- Body of `RingBufferFlush` on a non-NULL buffer: zero the bookkeeping
fields and `memset` the whole storage array to zero. -/
def flushCore (_rb : RingBuffer) : RingBuffer :=
  { buffer := List.replicate RING_BUFFER_SIZE 0, head := 0, tail := 0, items := 0 }

/-- Body of `RingBufferWillFull` on a non-NULL buffer:
`items + new_items > RING_BUFFER_SIZE - 1` means the batch would overfill. -/
def willFullCore (rb : RingBuffer) (new_items : Nat) : ReturnCodes :=
  if rb.items + new_items > RING_BUFFER_SIZE - 1 then .kFull else .kOk

/-- Body of `RingBufferFreeItems` on a non-NULL buffer:
`(RING_BUFFER_SIZE - 1) - items`. -/
def freeItemsCore (rb : RingBuffer) : Nat :=
  (RING_BUFFER_SIZE - 1) - rb.items

/-- Body of `RingBufferCurrentItems` on a non-NULL buffer: `items`. -/
def currentItemsCore (rb : RingBuffer) : Nat :=
  rb.items

/-- Body of `RingBufferCurrentSize` on a non-NULL buffer: forward cursor
distance from `tail` to `head`, wrapping. -/
def currentSizeCore (rb : RingBuffer) : Nat :=
  if rb.head ≥ rb.tail then rb.head - rb.tail
  else RING_BUFFER_SIZE + rb.head - rb.tail

/-- The `for` loop of `RingBufferStreamPush`: starting at index `i` with
`r` iterations left, push `data[i]` and stop with the failing code if an
element push fails. -/
def streamPushLoop (rb : RingBuffer) (data : List Nat) (i : Nat) :
    Nat → ReturnCodes × RingBuffer
  | 0 => (.kOk, rb)
  | r + 1 =>
    match pushCore rb (data.getD i 0) with
    | (.kOk, rb') => streamPushLoop rb' data (i + 1) r
    | (res, rb') => (res, rb')

/-- Body of `RingBufferStreamPush` on non-NULL, in-range arguments:
a C-truthy `RingBufferIsFull` test, then the `RingBufferWillFull`
pre-flight, then the element-push loop. -/
def streamPushCore (rb : RingBuffer) (data : List Nat) (items : Nat) :
    ReturnCodes × RingBuffer :=
  if isFullCore rb ≠ .kOk then (.kFull, rb)
  else if willFullCore rb items = .kFull then (.kFull, rb)
  else streamPushLoop rb data 0 items

/-- The `for` loop of `RingBufferStreamPop`: starting at index `i` with `r`
iterations left, pop into `out[i]` and stop with the failing code if an
element pop fails (the failing slot of `out` is left unchanged). -/
def streamPopLoop (rb : RingBuffer) (out : List Nat) (i : Nat) :
    Nat → ReturnCodes × RingBuffer × List Nat
  | 0 => (.kOk, rb, out)
  | r + 1 =>
    match popCore rb (out.getD i 0) with
    | (.kOk, rb', v) => streamPopLoop rb' (out.set i v) (i + 1) r
    | (res, rb', _) => (res, rb', out)

/-- Body of `RingBufferStreamPop` on non-NULL, nonzero-count arguments:
a C-truthy `RingBufferIsEmpty` test, then the element-pop loop. -/
def streamPopCore (rb : RingBuffer) (out : List Nat) (items : Nat) :
    ReturnCodes × RingBuffer × List Nat :=
  if isEmptyCore rb ≠ .kOk then (.kEmpty, rb, out)
  else streamPopLoop rb out 0 items

/-- `RingBufferInit`: NULL check, then `initCore`. -/
def RingBufferInit (rb? : Option RingBuffer) : ReturnCodes × Option RingBuffer :=
  match rb? with
  | none => (.kInvalidArgument, none)
  | some rb => (.kOk, some (initCore rb))

/-- `RingBufferIsFull`: NULL check, then `isFullCore`. -/
def RingBufferIsFull (rb? : Option RingBuffer) : ReturnCodes :=
  match rb? with
  | none => .kInvalidArgument
  | some rb => isFullCore rb

/-- `RingBufferIsEmpty`: NULL check, then `isEmptyCore`. -/
def RingBufferIsEmpty (rb? : Option RingBuffer) : ReturnCodes :=
  match rb? with
  | none => .kInvalidArgument
  | some rb => isEmptyCore rb

/-- `RingBufferPush`: NULL check, then `pushCore`. -/
def RingBufferPush (rb? : Option RingBuffer) (data : Nat) :
    ReturnCodes × Option RingBuffer :=
  match rb? with
  | none => (.kInvalidArgument, none)
  | some rb =>
    match pushCore rb data with
    | (res, rb') => (res, some rb')

/-- `RingBufferPop`: joint NULL check on the buffer and the out-pointer,
then `popCore`; `d?` models the out-pointer (`none` = NULL, `some d` = a
pointer whose pointee is `d`). -/
def RingBufferPop (rb? : Option RingBuffer) (d? : Option Nat) :
    ReturnCodes × Option RingBuffer × Option Nat :=
  match rb?, d? with
  | some rb, some d =>
    match popCore rb d with
    | (res, rb', v) => (res, some rb', some v)
  | _, _ => (.kInvalidArgument, rb?, d?)

/-- `RingBufferFlush`: NULL check, then `flushCore`. -/
def RingBufferFlush (rb? : Option RingBuffer) : ReturnCodes × Option RingBuffer :=
  match rb? with
  | none => (.kInvalidArgument, none)
  | some rb => (.kOk, some (flushCore rb))

/-- `RingBufferWillFull`: NULL check, then `willFullCore`. -/
def RingBufferWillFull (rb? : Option RingBuffer) (new_items : Nat) : ReturnCodes :=
  match rb? with
  | none => .kInvalidArgument
  | some rb => willFullCore rb new_items

/-- `RingBufferFreeItems`: NULL check on the buffer only — the C source
never tests `free_items` for NULL and then dereferences it unconditionally,
so with a non-NULL buffer and a NULL out-pointer the C has undefined
behaviour and returns no status at all; that path is marked by the result
`none`, while every defined path returns `some` of the status and the
out-pointee. -/
def RingBufferFreeItems (rb? : Option RingBuffer) (o? : Option Nat) :
    Option (ReturnCodes × Option Nat) :=
  match rb? with
  | none => some (.kInvalidArgument, o?)
  | some rb =>
    match o? with
    | none => none
    | some _ => some (.kOk, some (freeItemsCore rb))

/-- `RingBufferCurrentItems`: NULL check on the buffer only, then an
unconditional write through the out-pointer (`none` marks the undefined
NULL-dereference path, as in `RingBufferFreeItems`). -/
def RingBufferCurrentItems (rb? : Option RingBuffer) (o? : Option Nat) :
    Option (ReturnCodes × Option Nat) :=
  match rb? with
  | none => some (.kInvalidArgument, o?)
  | some rb =>
    match o? with
    | none => none
    | some _ => some (.kOk, some (currentItemsCore rb))

/-- `RingBufferCurrentSize`: NULL check on the buffer only, then an
unconditional write through the out-pointer (`none` marks the undefined
NULL-dereference path, as in `RingBufferFreeItems`). -/
def RingBufferCurrentSize (rb? : Option RingBuffer) (o? : Option Nat) :
    Option (ReturnCodes × Option Nat) :=
  match rb? with
  | none => some (.kInvalidArgument, o?)
  | some rb =>
    match o? with
    | none => none
    | some _ => some (.kOk, some (currentSizeCore rb))

/-- `RingBufferStreamPush`: joint first check
`rb == NULL || data == NULL || items >= RING_BUFFER_SIZE`, then
`streamPushCore`. -/
def RingBufferStreamPush (rb? : Option RingBuffer) (data? : Option (List Nat))
    (items : Nat) : ReturnCodes × Option RingBuffer :=
  match rb?, data? with
  | some rb, some data =>
    if items ≥ RING_BUFFER_SIZE then (.kInvalidArgument, some rb)
    else
      match streamPushCore rb data items with
      | (res, rb') => (res, some rb')
  | _, _ => (.kInvalidArgument, rb?)

/-- `RingBufferStreamPop`: joint first check
`rb == NULL || data == NULL || items <= 0` (note: no upper bound on
`items`), then `streamPopCore`; `out?` models the caller's out array. -/
def RingBufferStreamPop (rb? : Option RingBuffer) (out? : Option (List Nat))
    (items : Nat) : ReturnCodes × Option RingBuffer × Option (List Nat) :=
  match rb?, out? with
  | some rb, some out =>
    if items ≤ 0 then (.kInvalidArgument, some rb, some out)
    else
      match streamPopCore rb out items with
      | (res, rb', out') => (res, some rb', some out')
  | _, _ => (.kInvalidArgument, rb?, out?)

/-- Structural invariant of a well-formed buffer: the storage has its
declared length, both cursors are in range, the occupancy respects the
one-reserved-slot bound, and the write cursor sits `items` slots (mod `N`)
after the read cursor. -/
def BufInv (rb : RingBuffer) : Prop :=
  rb.buffer.length = RING_BUFFER_SIZE ∧
  rb.head < RING_BUFFER_SIZE ∧
  rb.tail < RING_BUFFER_SIZE ∧
  rb.items ≤ RING_BUFFER_SIZE - 1 ∧
  rb.head = (rb.tail + rb.items) % RING_BUFFER_SIZE

instance (rb : RingBuffer) : Decidable (BufInv rb) := by
  unfold BufInv; infer_instance

/-- States reachable from initialization through the public mutating
operations (the capacity queries never change the state). -/
inductive Reachable : RingBuffer → Prop where
  | init : ∀ rb : RingBuffer, rb.buffer.length = RING_BUFFER_SIZE →
      Reachable (initCore rb)
  | push : ∀ (rb : RingBuffer) (d : Nat), Reachable rb →
      Reachable (pushCore rb d).2
  | pop : ∀ (rb : RingBuffer) (d : Nat), Reachable rb →
      Reachable (popCore rb d).2.1
  | flush : ∀ rb : RingBuffer, Reachable rb → Reachable (flushCore rb)
  | streamPush : ∀ (rb : RingBuffer) (data : List Nat) (k : Nat),
      Reachable rb → Reachable (streamPushCore rb data k).2
  | streamPop : ∀ (rb : RingBuffer) (out : List Nat) (k : Nat),
      Reachable rb → Reachable (streamPopCore rb out k).2.1

/-- Abstraction function: the FIFO contents of the buffer, oldest first. -/
def toList (rb : RingBuffer) : List Nat :=
  (List.range rb.items).map (fun i => rb.buffer.getD ((rb.tail + i) % RING_BUFFER_SIZE) 0)

theorem toList_length (rb : RingBuffer) : (toList rb).length = rb.items := by
  simp [toList]

theorem bufInv_initCore (rb : RingBuffer)
    (hlen : rb.buffer.length = RING_BUFFER_SIZE) : BufInv (initCore rb) := by
  refine ⟨hlen, ?_, ?_, ?_, ?_⟩ <;> simp [initCore, RING_BUFFER_SIZE]

theorem bufInv_flushCore (rb : RingBuffer) : BufInv (flushCore rb) := by
  refine ⟨?_, ?_, ?_, ?_, ?_⟩ <;> simp [flushCore, RING_BUFFER_SIZE]

theorem pushCore_eq_of_full (rb : RingBuffer) (d : Nat)
    (hc : rb.items ≥ RING_BUFFER_SIZE - 1) : pushCore rb d = (.kFull, rb) := by
  simp [pushCore, isFullCore, hc]

theorem pushCore_eq_of_not_full (rb : RingBuffer) (d : Nat)
    (hc : rb.items < RING_BUFFER_SIZE - 1) :
    pushCore rb d = (.kOk,
      { buffer := rb.buffer.set rb.head d
        head := if rb.head + 1 ≥ RING_BUFFER_SIZE then 0 else rb.head + 1
        tail := rb.tail
        items := rb.items + 1 }) := by
  have hnc : ¬ (rb.items ≥ RING_BUFFER_SIZE - 1) := by omega
  simp [pushCore, isFullCore, hnc]

theorem popCore_eq_of_empty (rb : RingBuffer) (d : Nat)
    (hc : rb.items = 0) : popCore rb d = (.kEmpty, rb, d) := by
  simp [popCore, isEmptyCore, hc]

theorem popCore_eq_of_nonempty (rb : RingBuffer) (d : Nat)
    (hc : 0 < rb.items) :
    popCore rb d = (.kOk,
      { buffer := rb.buffer
        head := rb.head
        tail := if rb.tail + 1 ≥ RING_BUFFER_SIZE then 0 else rb.tail + 1
        items := rb.items - 1 },
      rb.buffer.getD rb.tail 0) := by
  have hnc : ¬ (rb.items ≤ 0) := by omega
  simp [popCore, isEmptyCore, hnc]

theorem bufInv_pushCore (rb : RingBuffer) (d : Nat) (h : BufInv rb) :
    BufInv (pushCore rb d).2 := by
  obtain ⟨hlen, hh, ht, hi, hm⟩ := h
  by_cases hc : rb.items ≥ RING_BUFFER_SIZE - 1
  · rw [pushCore_eq_of_full rb d hc]
    exact ⟨hlen, hh, ht, hi, hm⟩
  · rw [pushCore_eq_of_not_full rb d (by omega)]
    refine ⟨by simpa using hlen, ?_, ?_, ?_, ?_⟩ <;>
      simp only [RING_BUFFER_SIZE] at * <;> (try split) <;> omega

theorem bufInv_popCore (rb : RingBuffer) (d : Nat) (h : BufInv rb) :
    BufInv (popCore rb d).2.1 := by
  obtain ⟨hlen, hh, ht, hi, hm⟩ := h
  by_cases hc : rb.items = 0
  · rw [popCore_eq_of_empty rb d hc]
    exact ⟨hlen, hh, ht, hi, hm⟩
  · rw [popCore_eq_of_nonempty rb d (by omega)]
    refine ⟨by simpa using hlen, ?_, ?_, ?_, ?_⟩ <;>
      simp only [RING_BUFFER_SIZE] at * <;> (try split) <;> omega

theorem bufInv_streamPushLoop (r : Nat) : ∀ (rb : RingBuffer) (data : List Nat)
    (i : Nat), BufInv rb → BufInv (streamPushLoop rb data i r).2 := by
  induction r with
  | zero => intro rb data i h; exact h
  | succ r ih =>
    intro rb data i h
    have hp := bufInv_pushCore rb (data.getD i 0) h
    simp only [streamPushLoop]
    rcases he : pushCore rb (data.getD i 0) with ⟨res, rb'⟩
    rw [he] at hp
    cases res <;> simp only [] <;> first
    | exact ih rb' data (i + 1) hp
    | exact hp

theorem bufInv_streamPushCore (rb : RingBuffer) (data : List Nat) (k : Nat)
    (h : BufInv rb) : BufInv (streamPushCore rb data k).2 := by
  unfold streamPushCore
  split
  · exact h
  · split
    · exact h
    · exact bufInv_streamPushLoop k rb data 0 h

theorem bufInv_streamPopLoop (r : Nat) : ∀ (rb : RingBuffer) (out : List Nat)
    (i : Nat), BufInv rb → BufInv (streamPopLoop rb out i r).2.1 := by
  induction r with
  | zero => intro rb out i h; exact h
  | succ r ih =>
    intro rb out i h
    have hp := bufInv_popCore rb (out.getD i 0) h
    simp only [streamPopLoop]
    rcases he : popCore rb (out.getD i 0) with ⟨res, rb', v⟩
    rw [he] at hp
    cases res <;> simp only [] <;> first
    | exact ih rb' (out.set i v) (i + 1) hp
    | exact hp

theorem bufInv_streamPopCore (rb : RingBuffer) (out : List Nat) (k : Nat)
    (h : BufInv rb) : BufInv (streamPopCore rb out k).2.1 := by
  unfold streamPopCore
  split
  · exact h
  · exact bufInv_streamPopLoop k rb out 0 h

theorem bufInv_of_reachable {rb : RingBuffer} (h : Reachable rb) : BufInv rb := by
  induction h with
  | init rb hlen => exact bufInv_initCore rb hlen
  | push rb d _ ih => exact bufInv_pushCore rb d ih
  | pop rb d _ ih => exact bufInv_popCore rb d ih
  | flush rb _ _ => exact bufInv_flushCore rb
  | streamPush rb data k _ ih => exact bufInv_streamPushCore rb data k ih
  | streamPop rb out k _ ih => exact bufInv_streamPopCore rb out k ih

theorem getD_set_ne (l : List Nat) (i j v : Nat) (h : i ≠ j) :
    (l.set i v).getD j 0 = l.getD j 0 := by
  induction l generalizing i j with
  | nil => simp
  | cons a l ih =>
    cases i with
    | zero =>
      cases j with
      | zero => exact absurd rfl h
      | succ j => simp
    | succ i =>
      cases j with
      | zero => simp
      | succ j => simpa using ih i j (by omega)

theorem getD_set_self (l : List Nat) (i v : Nat) (h : i < l.length) :
    (l.set i v).getD i 0 = v := by
  induction l generalizing i with
  | nil => simp at h
  | cons a l ih =>
    cases i with
    | zero => simp
    | succ i => simpa using ih i (by simpa using h)

theorem toList_eq_nil (rb : RingBuffer) (h : rb.items = 0) : toList rb = [] := by
  simp [toList, h]

theorem toList_pushCore (rb : RingBuffer) (d : Nat) (h : BufInv rb)
    (hc : rb.items < RING_BUFFER_SIZE - 1) :
    toList (pushCore rb d).2 = toList rb ++ [d] := by
  obtain ⟨hlen, hh, ht, hi, hm⟩ := h
  rw [pushCore_eq_of_not_full rb d hc]
  unfold toList
  simp only [List.range_succ, List.map_append, List.map_cons, List.map_nil]
  congr 1
  · apply List.map_congr_left
    intro i hi
    have hi' : i < rb.items := List.mem_range.mp hi
    apply getD_set_ne
    simp only [RING_BUFFER_SIZE] at *
    omega
  · have hidx : (rb.tail + rb.items) % RING_BUFFER_SIZE = rb.head := hm.symm
    rw [hidx, getD_set_self rb.buffer rb.head d (by omega)]

theorem toList_popCore (rb : RingBuffer) (d : Nat) (h : BufInv rb)
    (hc : 0 < rb.items) :
    toList rb = rb.buffer.getD rb.tail 0 :: toList (popCore rb d).2.1 := by
  obtain ⟨hlen, hh, ht, hi, hm⟩ := h
  rw [popCore_eq_of_nonempty rb d hc]
  obtain ⟨m, hms⟩ : ∃ m, rb.items = m + 1 := ⟨rb.items - 1, by omega⟩
  unfold toList
  simp only [hms, Nat.add_sub_cancel, List.range_succ_eq_map, List.map_cons,
    List.map_map]
  have h0 : (rb.tail + 0) % RING_BUFFER_SIZE = rb.tail := by
    simp only [RING_BUFFER_SIZE] at *
    omega
  rw [h0]
  congr 1
  apply List.map_congr_left
  intro i hi
  simp only [Function.comp]
  have hidx : (rb.tail + (i + 1)) % RING_BUFFER_SIZE =
      ((if rb.tail + 1 ≥ RING_BUFFER_SIZE then 0 else rb.tail + 1) + i) %
        RING_BUFFER_SIZE := by
    simp only [RING_BUFFER_SIZE] at *
    split <;> omega
  rw [hidx]

/-- A single-element operation of the interleaved push/pop scenarios. -/
inductive BufOp where
  | push (b : Nat)
  | pop
deriving Repr, DecidableEq

/-- Run a sequence of single-element operations through the embedded
`pushCore`/`popCore`, collecting the bytes returned by the successful pops
in order. -/
def runOps (rb : RingBuffer) : List BufOp → RingBuffer × List Nat
  | [] => (rb, [])
  | BufOp.push b :: ops => runOps (pushCore rb b).2 ops
  | BufOp.pop :: ops =>
    match popCore rb 0 with
    | (res, rb', v) =>
      match runOps rb' ops with
      | (rbf, outs) => (rbf, if res = ReturnCodes.kOk then v :: outs else outs)

/-- An operation sequence is legal from an occupancy of `n` items when it
never pushes into a full buffer and never pops an empty one. -/
def legalOps : Nat → List BufOp → Prop
  | _, [] => True
  | n, BufOp.push _ :: ops => n < RING_BUFFER_SIZE - 1 ∧ legalOps (n + 1) ops
  | n, BufOp.pop :: ops => 0 < n ∧ legalOps (n - 1) ops

/-- The byte values handed to the pushes of a sequence, in order. -/
def pushedValues : List BufOp → List Nat
  | [] => []
  | BufOp.push b :: ops => b :: pushedValues ops
  | BufOp.pop :: ops => pushedValues ops

/-- The number of pops in a sequence. -/
def popCount : List BufOp → Nat
  | [] => 0
  | BufOp.push _ :: ops => popCount ops
  | BufOp.pop :: ops => popCount ops + 1

theorem pushCore_items_of_not_full (rb : RingBuffer) (b : Nat)
    (hlt : rb.items < RING_BUFFER_SIZE - 1) :
    (pushCore rb b).2.items = rb.items + 1 := by
  rw [pushCore_eq_of_not_full rb b hlt]

theorem popCore_items_of_nonempty (rb : RingBuffer) (d : Nat)
    (hne : 0 < rb.items) :
    (popCore rb d).2.1.items = rb.items - 1 := by
  rw [popCore_eq_of_nonempty rb d hne]

theorem runOps_spec (ops : List BufOp) : ∀ rb : RingBuffer, BufInv rb →
    legalOps rb.items ops →
    BufInv (runOps rb ops).1 ∧
    toList rb ++ pushedValues ops = (runOps rb ops).2 ++ toList (runOps rb ops).1 ∧
    (runOps rb ops).2.length = popCount ops := by
  induction ops with
  | nil =>
    intro rb h _
    exact ⟨h, by simp [runOps, pushedValues], rfl⟩
  | cons op ops ih =>
    intro rb h hl
    cases op with
    | push b =>
      obtain ⟨hlt, hl'⟩ := hl
      have hinv' := bufInv_pushCore rb b h
      have htl := toList_pushCore rb b h hlt
      have hrec := ih (pushCore rb b).2 hinv'
        (by rw [pushCore_items_of_not_full rb b hlt]; exact hl')
      refine ⟨hrec.1, ?_, ?_⟩
      · show toList rb ++ pushedValues (BufOp.push b :: ops) = _
        rw [pushedValues]
        calc toList rb ++ b :: pushedValues ops
            = (toList rb ++ [b]) ++ pushedValues ops := by simp
          _ = toList (pushCore rb b).2 ++ pushedValues ops := by rw [htl]
          _ = _ := hrec.2.1
      · simpa [runOps, popCount] using hrec.2.2
    | pop =>
      obtain ⟨hne, hl'⟩ := hl
      have hinv' := bufInv_popCore rb 0 h
      have htl := toList_popCore rb 0 h hne
      have hrec := ih (popCore rb 0).2.1 hinv'
        (by rw [popCore_items_of_nonempty rb 0 hne]; exact hl')
      have hpop := popCore_eq_of_nonempty rb 0 hne
      simp only [hpop] at hrec htl
      refine ⟨?_, ?_, ?_⟩
      · simp only [runOps, hpop]
        exact hrec.1
      · simp only [runOps, hpop, pushedValues]
        rw [htl]
        simp only [List.cons_append, if_true, reduceIte]
        exact congrArg _ hrec.2.1
      · simp only [runOps, hpop, popCount, if_true, reduceIte]
        simp [hrec.2.2]

theorem set_take_succ (l : List Nat) (i v : Nat) (h : i < l.length) :
    (l.set i v).take (i + 1) = l.take i ++ [v] := by
  induction l generalizing i with
  | nil => simp at h
  | cons a l ih =>
    cases i with
    | zero => simp
    | succ i => simpa using ih i (by simpa using h)

theorem set_drop (l : List Nat) (i v j : Nat) (h : i < j) :
    (l.set i v).drop j = l.drop j := by
  induction l generalizing i j with
  | nil => simp
  | cons a l ih =>
    cases i with
    | zero =>
      cases j with
      | zero => omega
      | succ j => simp
    | succ i =>
      cases j with
      | zero => omega
      | succ j => simpa using ih i j (by omega)

theorem drop_take_succ_getD (l : List Nat) (i r : Nat) (h : i < l.length) :
    (l.drop i).take (r + 1) = l.getD i 0 :: (l.drop (i + 1)).take r := by
  induction l generalizing i with
  | nil => simp at h
  | cons a l ih =>
    cases i with
    | zero => simp
    | succ i => simpa using ih i (by simpa using h)

theorem streamPushLoop_spec (r : Nat) : ∀ (rb : RingBuffer) (data : List Nat)
    (i : Nat), BufInv rb → rb.items + r ≤ RING_BUFFER_SIZE - 1 →
    i + r ≤ data.length →
    (streamPushLoop rb data i r).1 = .kOk ∧
    BufInv (streamPushLoop rb data i r).2 ∧
    (streamPushLoop rb data i r).2.items = rb.items + r ∧
    toList (streamPushLoop rb data i r).2 = toList rb ++ (data.drop i).take r := by
  induction r with
  | zero =>
    intro rb data i h _ _
    exact ⟨rfl, h, rfl, by simp [streamPushLoop]⟩
  | succ r ih =>
    intro rb data i h hcap hlen
    have hlt : rb.items < RING_BUFFER_SIZE - 1 := by
      simp only [RING_BUFFER_SIZE] at *
      omega
    have hpush := pushCore_eq_of_not_full rb (data.getD i 0) hlt
    have hinv1 := bufInv_pushCore rb (data.getD i 0) h
    have hit1 := pushCore_items_of_not_full rb (data.getD i 0) hlt
    have htl1 := toList_pushCore rb (data.getD i 0) h hlt
    have hrec := ih (pushCore rb (data.getD i 0)).2 data (i + 1)
      hinv1 (by rw [hit1]; omega) (by omega)
    simp only [hpush] at hrec htl1
    simp only [streamPushLoop, hpush]
    refine ⟨hrec.1, hrec.2.1, ?_, ?_⟩
    · rw [hrec.2.2.1]
      omega
    · rw [hrec.2.2.2, htl1]
      rw [drop_take_succ_getD data i r (by omega)]
      simp

theorem streamPopLoop_runs_out (r : Nat) : ∀ (rb : RingBuffer) (out : List Nat)
    (i : Nat), BufInv rb → rb.items < r → i + rb.items ≤ out.length →
    streamPopLoop rb out i r =
      (.kEmpty, { rb with tail := rb.head, items := 0 },
        out.take i ++ toList rb ++ out.drop (i + rb.items)) := by
  induction r with
  | zero =>
    intro rb out i _ hlt _
    exact absurd hlt (Nat.not_lt_zero _)
  | succ r ih =>
    intro rb out i h hlt hlen
    by_cases hz : rb.items = 0
    · have hpop := popCore_eq_of_empty rb (out.getD i 0) hz
      have hteq : rb.head = rb.tail := by
        obtain ⟨_, hh, ht, _, hm⟩ := h
        simp only [RING_BUFFER_SIZE] at *
        omega
      have hstate : ({ rb with tail := rb.head, items := 0 } : RingBuffer) = rb := by
        rcases rb with ⟨b, hd, tl, it⟩
        simp only at hteq hz
        simp [hteq, hz]
      simp only [streamPopLoop, hpop, hstate, toList_eq_nil rb hz, hz]
      simp
    · have hne : 0 < rb.items := by omega
      have hpop := popCore_eq_of_nonempty rb (out.getD i 0) hne
      have hinv1 := bufInv_popCore rb (out.getD i 0) h
      have hit1 := popCore_items_of_nonempty rb (out.getD i 0) hne
      have htl1 := toList_popCore rb (out.getD i 0) h hne
      have hilen : i < out.length := by omega
      have hrec := ih (popCore rb (out.getD i 0)).2.1
        (out.set i (rb.buffer.getD rb.tail 0)) (i + 1)
        hinv1
        (by rw [hit1]; omega)
        (by rw [hit1, List.length_set]; omega)
      have hhead : (popCore rb (out.getD i 0)).2.1.head = rb.head := by
        rw [hpop]
      have hbuf : (popCore rb (out.getD i 0)).2.1.buffer = rb.buffer := by
        rw [hpop]
      simp only [streamPopLoop, hpop]
      simp only [hpop] at hrec
      rw [hrec]
      simp only [Prod.mk.injEq]
      refine ⟨trivial, ?_, ?_⟩
      · rcases rb with ⟨b, hd, tl, it⟩
        simp
      · rw [set_take_succ out i (rb.buffer.getD rb.tail 0) hilen]
        rw [set_drop out i (rb.buffer.getD rb.tail 0) (i + 1 + (rb.items - 1))
          (by omega)]
        have hidx : i + 1 + (rb.items - 1) = i + rb.items := by omega
        rw [hidx]
        simp only [hpop] at htl1
        rw [htl1]
        simp [List.append_assoc]

theorem streamPushCore_eq_of_full (rb : RingBuffer) (data : List Nat) (k : Nat)
    (hc : rb.items ≥ RING_BUFFER_SIZE - 1) :
    streamPushCore rb data k = (.kFull, rb) := by
  simp [streamPushCore, isFullCore, hc]

theorem streamPushCore_eq_of_would_fill (rb : RingBuffer) (data : List Nat)
    (k : Nat) (hc : rb.items < RING_BUFFER_SIZE - 1)
    (hw : rb.items + k > RING_BUFFER_SIZE - 1) :
    streamPushCore rb data k = (.kFull, rb) := by
  have hnc : ¬ (rb.items ≥ RING_BUFFER_SIZE - 1) := by omega
  simp [streamPushCore, isFullCore, willFullCore, hnc, hw]

theorem streamPushCore_eq_of_fits (rb : RingBuffer) (data : List Nat) (k : Nat)
    (hc : rb.items < RING_BUFFER_SIZE - 1)
    (hw : rb.items + k ≤ RING_BUFFER_SIZE - 1) :
    streamPushCore rb data k = streamPushLoop rb data 0 k := by
  have hnc : ¬ (rb.items ≥ RING_BUFFER_SIZE - 1) := by omega
  have hnw : ¬ (rb.items + k > RING_BUFFER_SIZE - 1) := by omega
  simp [streamPushCore, isFullCore, willFullCore, hnc, hnw]

theorem streamPushCore_spec (rb : RingBuffer) (data : List Nat) (k : Nat)
    (h : BufInv rb) (hc : rb.items < RING_BUFFER_SIZE - 1)
    (hw : rb.items + k ≤ RING_BUFFER_SIZE - 1) (hlen : k ≤ data.length) :
    (streamPushCore rb data k).1 = .kOk ∧
    BufInv (streamPushCore rb data k).2 ∧
    (streamPushCore rb data k).2.items = rb.items + k ∧
    toList (streamPushCore rb data k).2 = toList rb ++ data.take k := by
  rw [streamPushCore_eq_of_fits rb data k hc hw]
  have := streamPushLoop_spec k rb data 0 h hw (by omega)
  simpa using this

/-- A concrete all-zero buffer in the freshly initialized state. -/
def zeroBuf : RingBuffer :=
  { buffer := [0, 0, 0, 0], head := 0, tail := 0, items := 0 }

/-- The state after `init; push 10`: one byte stored. -/
def oneBuf : RingBuffer :=
  { buffer := [10, 0, 0, 0], head := 1, tail := 0, items := 1 }

/-- The state after `init; push 10; push 20`: two bytes stored. -/
def twoBuf : RingBuffer :=
  { buffer := [10, 20, 0, 0], head := 2, tail := 0, items := 2 }

/-- The state after `init; push 1; push 2; push 3`: full (usable capacity
`RING_BUFFER_SIZE - 1 = 3` exhausted). -/
def fullBuf : RingBuffer :=
  { buffer := [1, 2, 3, 0], head := 3, tail := 0, items := 3 }

theorem reachable_zeroBuf : Reachable zeroBuf := by
  have h0 : Reachable (initCore zeroBuf) := Reachable.init zeroBuf (by decide)
  have he : initCore zeroBuf = zeroBuf := by decide
  rwa [he] at h0

theorem reachable_oneBuf : Reachable oneBuf := by
  have h1 := Reachable.push zeroBuf 10 reachable_zeroBuf
  have he : (pushCore zeroBuf 10).2 = oneBuf := by decide
  rwa [he] at h1

theorem reachable_twoBuf : Reachable twoBuf := by
  have h1 := Reachable.push oneBuf 20 reachable_oneBuf
  have he : (pushCore oneBuf 20).2 = twoBuf := by decide
  rwa [he] at h1

theorem reachable_fullBuf : Reachable fullBuf := by
  have h1 := Reachable.push zeroBuf 1 reachable_zeroBuf
  have h2 := Reachable.push _ 2 h1
  have h3 := Reachable.push _ 3 h2
  have he : (pushCore (pushCore (pushCore zeroBuf 1).2 2).2 3).2 = fullBuf := by
    decide
  rwa [he] at h3

/-- Claim C3: starting from a freshly initialized buffer of capacity
`RING_BUFFER_SIZE`, exactly `RING_BUFFER_SIZE - 1` consecutive single-element
pushes succeed and the `RING_BUFFER_SIZE`-th push returns the full status,
leaving the state unchanged: usable capacity is `RING_BUFFER_SIZE - 1`. -/
theorem usable_capacity_is_size_minus_one (rb : RingBuffer) (b1 b2 b3 b4 : Nat) :
    (RingBufferPush (RingBufferInit (some rb)).2 b1).1 = .kOk ∧
    (RingBufferPush (RingBufferPush (RingBufferInit (some rb)).2 b1).2 b2).1 =
      .kOk ∧
    (RingBufferPush (RingBufferPush (RingBufferPush
      (RingBufferInit (some rb)).2 b1).2 b2).2 b3).1 = .kOk ∧
    RingBufferPush (RingBufferPush (RingBufferPush (RingBufferPush
      (RingBufferInit (some rb)).2 b1).2 b2).2 b3).2 b4 =
      (.kFull, (RingBufferPush (RingBufferPush (RingBufferPush
        (RingBufferInit (some rb)).2 b1).2 b2).2 b3).2) := by
  simp [RingBufferInit, RingBufferPush, pushCore, isFullCore, initCore,
    RING_BUFFER_SIZE]

/-- Claim C4: for every reachable buffer state, the value written by
`RingBufferFreeItems` plus the value written by `RingBufferCurrentItems`
equals `RING_BUFFER_SIZE - 1`; since all reachable states satisfy this, the
equation is preserved by every public operation. -/
theorem free_plus_used_eq_capacity (rb : RingBuffer) (hr : Reachable rb) :
    freeItemsCore rb + currentItemsCore rb = RING_BUFFER_SIZE - 1 := by
  obtain ⟨_, _, _, hi, _⟩ := bufInv_of_reachable hr
  unfold freeItemsCore currentItemsCore
  simp only [RING_BUFFER_SIZE] at *
  omega

theorem free_plus_used_eq_capacity_witness :
    freeItemsCore twoBuf + currentItemsCore twoBuf = RING_BUFFER_SIZE - 1 :=
  free_plus_used_eq_capacity twoBuf reachable_twoBuf

/-- Claim C5: for every state reachable through the public operations, the
wrapping forward distance from `tail` to `head` computed by
`RingBufferCurrentSize` equals the occupancy counter `items`. -/
theorem cursor_span_eq_count (rb : RingBuffer) (hr : Reachable rb) :
    currentSizeCore rb = currentItemsCore rb := by
  obtain ⟨_, hh, ht, hi, hm⟩ := bufInv_of_reachable hr
  unfold currentSizeCore currentItemsCore
  simp only [RING_BUFFER_SIZE] at *
  split <;> omega

theorem cursor_span_eq_count_witness :
    currentSizeCore twoBuf = currentItemsCore twoBuf :=
  cursor_span_eq_count twoBuf reachable_twoBuf

/-- Claim C6: full and empty failures of the single-element operations are
true no-ops: pushing into a full buffer returns the full status with the
whole state (head, tail, count, every storage byte) unchanged, and popping
an empty buffer returns the empty status with the state and the caller's
out-byte unchanged. -/
theorem full_empty_failures_are_noops :
    (∀ (rb : RingBuffer) (d : Nat), RingBufferIsFull (some rb) = .kFull →
      RingBufferPush (some rb) d = (.kFull, some rb)) ∧
    (∀ (rb : RingBuffer) (d : Nat), RingBufferIsEmpty (some rb) = .kEmpty →
      RingBufferPop (some rb) (some d) = (.kEmpty, some rb, some d)) := by
  constructor
  · intro rb d hfull
    have hit : rb.items ≥ RING_BUFFER_SIZE - 1 := by
      by_contra hc
      simp [RingBufferIsFull, isFullCore, hc] at hfull
    simp [RingBufferPush, pushCore_eq_of_full rb d hit]
  · intro rb d hempty
    have hit : rb.items = 0 := by
      by_contra hc
      simp [RingBufferIsEmpty, isEmptyCore, Nat.le_zero, hc] at hempty
    simp [RingBufferPop, popCore_eq_of_empty rb d hit]

theorem full_empty_failures_are_noops_witness :
    (RingBufferIsFull (some fullBuf) = .kFull ∧
      RingBufferPush (some fullBuf) 7 = (.kFull, some fullBuf)) ∧
    (RingBufferIsEmpty (some zeroBuf) = .kEmpty ∧
      RingBufferPop (some zeroBuf) (some 9) = (.kEmpty, some zeroBuf, some 9)) :=
  ⟨⟨by decide, full_empty_failures_are_noops.1 fullBuf 7 (by decide)⟩,
    ⟨by decide, full_empty_failures_are_noops.2 zeroBuf 9 (by decide)⟩⟩

/-- Claim C9: flush is unconditional and idempotent: on any non-NULL buffer
it succeeds, zeroes head, tail and count, and overwrites every storage byte
with zero; flushing twice equals flushing once; on NULL it fails with the
invalid-argument status. -/
theorem flush_unconditional_idempotent :
    (∀ rb : RingBuffer,
      RingBufferFlush (some rb) = (.kOk, some (flushCore rb)) ∧
      flushCore rb = RingBuffer.mk (List.replicate RING_BUFFER_SIZE 0) 0 0 0 ∧
      flushCore (flushCore rb) = flushCore rb) ∧
    RingBufferFlush none = (.kInvalidArgument, none) :=
  ⟨fun _ => ⟨rfl, rfl, rfl⟩, rfl⟩

/-- Claim C10: only push (at the head slot) and flush write the storage
array: a pop leaves every storage byte unchanged and, on success, returns
the byte at `tail`; init leaves the storage unchanged; a push rewrites
exactly the slot at `head` (and nothing on failure); flush rewrites the
whole array with zeros.  The capacity queries are embedded as pure
functions because their C bodies never assign to the buffer. -/
theorem storage_write_frame :
    (∀ (rb : RingBuffer) (d : Nat),
      (popCore rb d).2.1.buffer = rb.buffer ∧
      ((popCore rb d).1 = .kOk →
        (popCore rb d).2.2 = rb.buffer.getD rb.tail 0)) ∧
    (∀ rb : RingBuffer, (initCore rb).buffer = rb.buffer) ∧
    (∀ (rb : RingBuffer) (d : Nat),
      (pushCore rb d).2.buffer =
        if isFullCore rb = .kFull then rb.buffer else rb.buffer.set rb.head d) ∧
    (∀ rb : RingBuffer, (flushCore rb).buffer = List.replicate RING_BUFFER_SIZE 0) := by
  refine ⟨?_, fun rb => rfl, ?_, fun rb => rfl⟩
  · intro rb d
    by_cases hz : rb.items = 0
    · rw [popCore_eq_of_empty rb d hz]
      exact ⟨rfl, fun h => ReturnCodes.noConfusion h⟩
    · rw [popCore_eq_of_nonempty rb d (by omega)]
      exact ⟨rfl, fun _ => rfl⟩
  · intro rb d
    by_cases hc : isFullCore rb = .kFull
    · simp [pushCore, hc]
    · simp [pushCore, hc]

theorem storage_write_frame_witness :
    (popCore twoBuf 0).2.2 = twoBuf.buffer.getD twoBuf.tail 0 :=
  (storage_write_frame.1 twoBuf 0).2 (by decide)

/-- Claim C2: FIFO order: from a freshly initialized (empty, reachable)
buffer, for every interleaving of single-element pushes and pops that never
pops an empty buffer and never pushes a full one, the bytes returned by the
pops equal the bytes given to the corresponding pushes, in order. -/
theorem fifo_order (ops : List BufOp) (rb : RingBuffer) (hr : Reachable rb)
    (hempty : rb.items = 0) (hl : legalOps rb.items ops) :
    (runOps rb ops).2 = (pushedValues ops).take (popCount ops) := by
  have hinv := bufInv_of_reachable hr
  have hspec := runOps_spec ops rb hinv hl
  have htl : toList rb = [] := toList_eq_nil rb hempty
  have happ := hspec.2.1
  rw [htl] at happ
  simp only [List.nil_append] at happ
  rw [happ, ← hspec.2.2]
  exact (List.take_left _ _).symm

theorem fifo_order_witness :
    (runOps zeroBuf [BufOp.push 1, BufOp.push 2, BufOp.pop, BufOp.push 3,
      BufOp.pop, BufOp.pop]).2 =
    (pushedValues [BufOp.push 1, BufOp.push 2, BufOp.pop, BufOp.push 3,
      BufOp.pop, BufOp.pop]).take
      (popCount [BufOp.push 1, BufOp.push 2, BufOp.pop, BufOp.push 3,
        BufOp.pop, BufOp.pop]) :=
  fifo_order _ zeroBuf reachable_zeroBuf (by decide)
    (by norm_num [legalOps, RING_BUFFER_SIZE, zeroBuf])

/-- Claim C7: for every reachable non-empty buffer and every requested count
`n` larger than the current occupancy (with a large enough out array),
`RingBufferStreamPop` performs no up-front `n ≤ used` validation: it pops
the `items` available bytes one at a time in FIFO order into the front of
the out array (the remainder of the array unchanged), empties the buffer,
and returns the empty status when the data runs out mid-batch. -/
theorem stream_pop_runs_out_midway (rb : RingBuffer) (out : List Nat) (n : Nat)
    (hr : Reachable rb) (hne : 0 < rb.items) (hgt : rb.items < n)
    (hlen : n ≤ out.length) :
    RingBufferStreamPop (some rb) (some out) n =
      (.kEmpty, some { rb with tail := rb.head, items := 0 },
        some (toList rb ++ out.drop rb.items)) := by
  have hinv := bufInv_of_reachable hr
  have hloop := streamPopLoop_runs_out n rb out 0 hinv hgt (by omega)
  have hnz : ¬ (n ≤ 0) := by omega
  have hnotempty : isEmptyCore rb = .kOk := by
    unfold isEmptyCore
    have hgt0 : ¬ (rb.items ≤ 0) := by omega
    simp [hgt0]
  have hcore : streamPopCore rb out n =
      (.kEmpty, { rb with tail := rb.head, items := 0 },
        toList rb ++ out.drop rb.items) := by
    unfold streamPopCore
    rw [hnotempty]
    simpa using hloop
  simp [RingBufferStreamPop, hnz, hcore]

theorem stream_pop_runs_out_midway_witness :
    RingBufferStreamPop (some twoBuf) (some [0, 0, 0]) 3 =
      (.kEmpty, some (RingBuffer.mk [10, 20, 0, 0] 2 2 0), some [10, 20, 0]) := by
  have h := stream_pop_runs_out_midway twoBuf [0, 0, 0] 3 reachable_twoBuf
    (by decide) (by decide) (by decide)
  exact h.trans (by decide)

/-- Claim C1 counterexample: `fullBuf` is reachable, the batch size `0` is
inside the valid range `[0, RING_BUFFER_SIZE)`, and `free_slots ≥ 0` holds,
yet `RingBufferStreamPush` returns the full status rather than succeeding:
the claimed iff fails at `k = 0` on an already-full buffer. -/
theorem stream_push_zero_on_full_buffer_fails :
    Reachable fullBuf ∧ 0 < RING_BUFFER_SIZE ∧ 0 ≤ freeItemsCore fullBuf ∧
    (RingBufferStreamPush (some fullBuf) (some []) 0).1 = .kFull ∧
    (RingBufferStreamPush (some fullBuf) (some []) 0).1 ≠ .kOk :=
  ⟨reachable_fullBuf, by decide, by decide, by decide, by decide⟩

/-- Claim C1 (amended): for every reachable buffer state and valid
arguments (non-null references, `0 ≤ k < RING_BUFFER_SIZE`, and at least
`k` bytes of data), `RingBufferStreamPush` succeeds iff the buffer is not
already full and `free_slots ≥ k`; on success the occupancy rises by
exactly `k` and the `k` bytes are appended to the FIFO in data order. -/
theorem stream_push_succeeds_iff (rb : RingBuffer) (data : List Nat) (k : Nat)
    (hr : Reachable rb) (hk : k < RING_BUFFER_SIZE) (hlen : k ≤ data.length) :
    ((RingBufferStreamPush (some rb) (some data) k).1 = .kOk ↔
      (RingBufferIsFull (some rb) ≠ .kFull ∧ k ≤ freeItemsCore rb)) ∧
    ∀ rb' : RingBuffer,
      RingBufferStreamPush (some rb) (some data) k = (.kOk, some rb') →
      currentItemsCore rb' = currentItemsCore rb + k ∧
      toList rb' = toList rb ++ data.take k := by
  have hinv := bufInv_of_reachable hr
  have hnk : ¬ (k ≥ RING_BUFFER_SIZE) := by omega
  have hwrap : RingBufferStreamPush (some rb) (some data) k =
      ((streamPushCore rb data k).1, some (streamPushCore rb data k).2) := by
    rcases hs : streamPushCore rb data k with ⟨res, rb2⟩
    simp [RingBufferStreamPush, hnk, hs]
  obtain ⟨hbl, hh, ht, hi, hm⟩ := hinv
  by_cases hfull : rb.items ≥ RING_BUFFER_SIZE - 1
  · rw [hwrap, streamPushCore_eq_of_full rb data k hfull]
    constructor
    · simp [RingBufferIsFull, isFullCore, hfull]
    · intro rb' heq
      simp at heq
  · by_cases hcap : rb.items + k ≤ RING_BUFFER_SIZE - 1
    · have hspec := streamPushCore_spec rb data k ⟨hbl, hh, ht, hi, hm⟩
        (by omega) hcap hlen
      rw [hwrap]
      constructor
      · constructor
        · intro _
          refine ⟨by simp [RingBufferIsFull, isFullCore, hfull], ?_⟩
          unfold freeItemsCore
          simp only [RING_BUFFER_SIZE] at *
          omega
        · intro _
          exact hspec.1
      · intro rb' heq
        have h2 : (streamPushCore rb data k).2 = rb' := by
          have h3 := congrArg Prod.snd heq
          simpa using h3
        constructor
        · unfold currentItemsCore
          rw [← h2, hspec.2.2.1]
        · rw [← h2]
          exact hspec.2.2.2
    · rw [hwrap, streamPushCore_eq_of_would_fill rb data k (by omega) (by omega)]
      constructor
      · constructor
        · intro hcon
          simp at hcon
        · rintro ⟨-, hfree⟩
          unfold freeItemsCore at hfree
          simp only [RING_BUFFER_SIZE] at *
          omega
      · intro rb' heq
        simp at heq

theorem stream_push_succeeds_iff_witness :
    (RingBufferStreamPush (some oneBuf) (some [20, 30]) 2).1 = .kOk ∧
    currentItemsCore (RingBuffer.mk [10, 20, 30, 0] 3 0 3) =
      currentItemsCore oneBuf + 2 ∧
    toList (RingBuffer.mk [10, 20, 30, 0] 3 0 3) =
      toList oneBuf ++ [20, 30].take 2 := by
  have h := stream_push_succeeds_iff oneBuf [20, 30] 2 reachable_oneBuf
    (by decide) (by decide)
  exact ⟨h.1.mpr ⟨by decide, by decide⟩,
    h.2 (RingBuffer.mk [10, 20, 30, 0] 3 0 3) (by decide)⟩

/-- Claim C8 counterexample: the claim fails on two concrete inputs.
First, `oneBuf` is reachable and non-empty and the batch size `4` is
outside the claimed valid range `[0, RING_BUFFER_SIZE)`, yet
`RingBufferStreamPop` does not return the invalid-argument status; it
proceeds, mutates the buffer, and returns the empty status.  Second, a
required output reference is absent in `RingBufferFreeItems (some oneBuf)
none`, yet no invalid-argument status comes back: the C dereferences the
NULL out-pointer unconditionally (undefined behaviour, marked `none` in the
embedding), so no status `st` at all is returned. -/
theorem stream_pop_accepts_oversized_count :
    Reachable oneBuf ∧ RING_BUFFER_SIZE ≤ 4 ∧
    (RingBufferStreamPop (some oneBuf) (some [0, 0, 0, 0]) 4).1 = .kEmpty ∧
    (RingBufferStreamPop (some oneBuf) (some [0, 0, 0, 0]) 4).1 ≠
      .kInvalidArgument ∧
    (RingBufferStreamPop (some oneBuf) (some [0, 0, 0, 0]) 4).2.1 ≠
      some oneBuf ∧
    RingBufferFreeItems (some oneBuf) none = none ∧
    (∀ st : ReturnCodes × Option Nat,
      RingBufferFreeItems (some oneBuf) none ≠ some st) :=
  ⟨reachable_oneBuf, by decide, by decide, by decide, by decide, rfl,
    fun _ h => Option.noConfusion h⟩

/-- Claim C8 (amended): init, push, pop, flush, the full/empty/would-fill
predicates and the two stream operations perform their argument validation
first and return the invalid-argument status, leaving the buffer and the
out-pointees unchanged, when a required reference (for pop and the stream
operations including the data/output pointer) is NULL; `stream_push`
additionally rejects a batch size `≥ RING_BUFFER_SIZE`, while `stream_pop`
rejects only a batch size of `0` and performs no upper-range check.  The
three item-count queries check only the buffer reference: on a NULL buffer
they return invalid-argument without touching the out-pointee, but with a
valid buffer and a NULL out-pointer they return no status at all — the C
dereferences the NULL out-pointer unconditionally (undefined behaviour,
`none` in the embedding). -/
theorem invalid_argument_checks_come_first :
    RingBufferInit none = (.kInvalidArgument, none) ∧
    RingBufferIsFull none = .kInvalidArgument ∧
    RingBufferIsEmpty none = .kInvalidArgument ∧
    (∀ d : Nat, RingBufferPush none d = (.kInvalidArgument, none)) ∧
    (∀ (rb? : Option RingBuffer) (d? : Option Nat), rb? = none ∨ d? = none →
      RingBufferPop rb? d? = (.kInvalidArgument, rb?, d?)) ∧
    RingBufferFlush none = (.kInvalidArgument, none) ∧
    (∀ n : Nat, RingBufferWillFull none n = .kInvalidArgument) ∧
    (∀ o? : Option Nat,
      RingBufferFreeItems none o? = some (.kInvalidArgument, o?)) ∧
    (∀ o? : Option Nat,
      RingBufferCurrentItems none o? = some (.kInvalidArgument, o?)) ∧
    (∀ o? : Option Nat,
      RingBufferCurrentSize none o? = some (.kInvalidArgument, o?)) ∧
    (∀ rb : RingBuffer, RingBufferFreeItems (some rb) none = none) ∧
    (∀ rb : RingBuffer, RingBufferCurrentItems (some rb) none = none) ∧
    (∀ rb : RingBuffer, RingBufferCurrentSize (some rb) none = none) ∧
    (∀ (rb? : Option RingBuffer) (data? : Option (List Nat)) (k : Nat),
      rb? = none ∨ data? = none ∨ k ≥ RING_BUFFER_SIZE →
      RingBufferStreamPush rb? data? k = (.kInvalidArgument, rb?)) ∧
    (∀ (rb? : Option RingBuffer) (out? : Option (List Nat)) (n : Nat),
      rb? = none ∨ out? = none ∨ n = 0 →
      RingBufferStreamPop rb? out? n = (.kInvalidArgument, rb?, out?)) := by
  refine ⟨rfl, rfl, rfl, fun _ => rfl, ?_, rfl, fun _ => rfl, fun _ => rfl,
    fun _ => rfl, fun _ => rfl, fun _ => rfl, fun _ => rfl, fun _ => rfl,
    ?_, ?_⟩
  · rintro rb? d? (rfl | rfl)
    · cases d? <;> rfl
    · cases rb? <;> rfl
  · rintro rb? data? k (rfl | rfl | hk)
    · cases data? <;> rfl
    · cases rb? <;> rfl
    · rcases rb? with _ | rb
      · cases data? <;> rfl
      · rcases data? with _ | data
        · rfl
        · simp [RingBufferStreamPush, hk]
  · rintro rb? out? n (rfl | rfl | rfl)
    · cases out? <;> rfl
    · cases rb? <;> rfl
    · rcases rb? with _ | rb
      · cases out? <;> rfl
      · rcases out? with _ | out
        · rfl
        · simp [RingBufferStreamPop]

theorem invalid_argument_checks_come_first_witness :
    RingBufferStreamPush (some zeroBuf) (some [1, 2, 3, 4]) 4 =
      (.kInvalidArgument, some zeroBuf) ∧
    RingBufferStreamPop (some zeroBuf) none 3 =
      (.kInvalidArgument, some zeroBuf, none) ∧
    RingBufferFreeItems (some zeroBuf) none = none :=
  ⟨invalid_argument_checks_come_first.2.2.2.2.2.2.2.2.2.2.2.2.2.1
      (some zeroBuf) (some [1, 2, 3, 4]) 4 (Or.inr (Or.inr (by decide))),
    invalid_argument_checks_come_first.2.2.2.2.2.2.2.2.2.2.2.2.2.2
      (some zeroBuf) none 3 (Or.inr (Or.inl rfl)),
    invalid_argument_checks_come_first.2.2.2.2.2.2.2.2.2.2.1 zeroBuf⟩
